import Mathlib

/-!
Verification of the response-normalization pipeline of SmartTalk
(`backend/test_generate.py`).

The pipeline there is, in order (working on the model reply `text`):

1. `text = response.text.strip()`
2. `if text.startswith("```"):`
     `text = re.sub(r'^```(?:json)?\s*', '', text)`
     `text = re.sub(r'\s*```$', '', text)`
3. `json_match = re.search(r'\{[^{}]*"problem"[^{}]*"func_signature"[^{}]*\}', text, re.DOTALL)`
   `if json_match: text = json_match.group(0)`
4. for each `cmd` in a fixed list of LaTeX command names:
     `text = text.replace('\' + cmd, '\\' + cmd)`
5. `data = json.loads(text)` (inside `try/except`; any exception is the
   single failure channel of the script).

Strings are embedded as `List Char`.  Each Python operation used by the
pipeline is given an executable Lean denotation below; the comments on
each definition name the construct it embeds.
-/

set_option maxRecDepth 100000

namespace SmartTalk

/-- Open-brace character (`{`, code 123). -/
def obr : Char := Char.ofNat 123

/-- Close-brace character (`}`, code 125). -/
def cbr : Char := Char.ofNat 125

/-- Backtick character (code 96), used by fence markers. -/
def tick : Char := Char.ofNat 96

/-- `beginsWith l p` holds when `p` is an initial segment of `l`
(the denotation of Python `startswith` and of matching a literal
at the current position of a regex). -/
def beginsWith : List Char → List Char → Bool
  | _, [] => true
  | [], _ :: _ => false
  | c :: t, p :: ps => if c = p then beginsWith t ps else false

/-- `hasSub p l` holds when `p` occurs as a contiguous substring of `l`
(the denotation of Python `in` / an unanchored regex literal). -/
def hasSub (p : List Char) : List Char → Bool
  | [] => beginsWith [] p
  | c :: t => beginsWith (c :: t) p || hasSub p t

/-- Whitespace as stripped by Python `str.strip()` and matched by `\s`
(modelled over the ASCII whitespace characters; the exotic Unicode
whitespace Python additionally recognizes never occurs here). -/
def isPyWs (c : Char) : Bool :=
  decide (c = ' ' ∨ c = '\t' ∨ c = '\n' ∨ c = '\r' ∨ c = '\x0b' ∨ c = '\x0c')

/-- Remove leading whitespace (`str.lstrip`). -/
def lstripWs (l : List Char) : List Char := l.dropWhile isPyWs

/-- Remove trailing whitespace (`str.rstrip`). -/
def rstripWs (l : List Char) : List Char := (l.reverse.dropWhile isPyWs).reverse

/-- `str.strip()`: drop leading and trailing whitespace. -/
def pyStrip (l : List Char) : List Char := rstripWs (lstripWs l)

/-- The fence marker, three backticks. -/
def fenceLit : List Char := [tick, tick, tick]

/-- Denotation of `re.sub(r'^```(?:json)?\s*', '', text)`: the pattern is
anchored at position 0, so at most one match is removed — the three
backticks, then `json` if literally present (the optional group is greedy
and `\s*` cannot fail), then the maximal run of whitespace. -/
def subLeadingFence (l : List Char) : List Char :=
  if beginsWith l fenceLit then
    lstripWs (if beginsWith (l.drop 3) ("json".data) then (l.drop 3).drop 4 else l.drop 3)
  else l

/-- Denotation of `re.sub(r'\s*```$', '', text)` on the strings this
pipeline feeds it (outputs of `strip`/`subLeadingFence`, which never end
in a newline, so `$` is end-of-string): if the text ends with the three
backticks, they are removed together with the maximal whitespace run
immediately before them; otherwise the text is unchanged. -/
def subTrailingFence (l : List Char) : List Char :=
  if beginsWith l.reverse fenceLit then (lstripWs (l.reverse.drop 3)).reverse else l

/-- Stage 2 of the pipeline: `if text.startswith("```")`, apply the two
substitutions. -/
def fenceStage (l : List Char) : List Char :=
  if beginsWith l fenceLit then subTrailingFence (subLeadingFence l) else l

/-- `c` is not a brace (the character class `[^{}]`). -/
def notBrace (c : Char) : Bool := !(c = obr || c = cbr)

/-- The literal `"problem"` (with its quotes) from the extraction regex. -/
def problemLit : List Char := "\"problem\"".data

/-- The literal `"func_signature"` (with its quotes) from the extraction
regex. -/
def sigLit : List Char := "\"func_signature\"".data

/-- Remainder of `l` after the first occurrence of `p`, if any. -/
def dropAfterFirst (p : List Char) : List Char → Option (List Char)
  | [] => if beginsWith [] p then some [] else none
  | c :: t =>
    if beginsWith (c :: t) p then some ((c :: t).drop p.length)
    else dropAfterFirst p t

/-- Whether a brace-free run contains `"problem"` followed, disjointly and
in order, by `"func_signature"` — the condition under which
`[^{}]*"problem"[^{}]*"func_signature"[^{}]*` matches the run.  (Greedy
backtracking chooses particular occurrences, but the overall extent of the
match does not depend on the choice, so only existence matters.) -/
def seqOk (run : List Char) : Bool :=
  match dropAfterFirst problemLit run with
  | some rest => hasSub sigLit rest
  | none => false

/-- Attempt of the regex `\{[^{}]*"problem"[^{}]*"func_signature"[^{}]*\}`
at the current position.  Every inner piece of the pattern is brace-free,
so a match starting at a `{` must end at the very next brace, which must
be a `}`; the match succeeds exactly when the run between them satisfies
`seqOk`, and `group(0)` is then the whole span. -/
def matchAtHead (l : List Char) : Option (List Char) :=
  match l with
  | [] => none
  | c :: rest =>
    if c = obr then
      let run := rest.takeWhile notBrace
      match rest.dropWhile notBrace with
      | c2 :: _ => if c2 = cbr ∧ seqOk run = true then some (obr :: (run ++ [cbr])) else none
      | [] => none
    else none

/-- Denotation of `re.search(pattern, text, re.DOTALL)` for the extraction
pattern: try every start position left to right, return `group(0)` of the
first match. -/
def searchPat : List Char → Option (List Char)
  | [] => none
  | c :: t =>
    match matchAtHead (c :: t) with
    | some m => some m
    | none => searchPat t

/-- Stage 3: `if json_match: text = json_match.group(0)` — on a match the
candidate becomes the matched span, otherwise it is left unchanged. -/
def extractStage (l : List Char) : List Char :=
  match searchPat l with
  | some m => m
  | none => l

/-- Denotation of Python `str.replace(old, new)` (all non-overlapping
occurrences, scanned left to right, replaced text not rescanned), for a
nonempty `old = o :: os`.  Fuel is the length of the input, which bounds
the number of steps. -/
def replAllAux (o : Char) (os new : List Char) : Nat → List Char → List Char
  | 0, l => l
  | _ + 1, [] => []
  | f + 1, c :: t =>
    if beginsWith (c :: t) (o :: os) then new ++ replAllAux o os new f (t.drop os.length)
    else c :: replAllAux o os new f t

/-- `str.replace (o :: os) new`. -/
def replAll (o : Char) (os new l : List Char) : List Char :=
  replAllAux o os new l.length l

/-- The `latex_commands` list of the source, in source order. -/
def latexCommands : List String :=
  ["le", "ge", "text", "sum", "prod", "int", "frac", "sqrt", "times",
   "div", "pm", "mp", "leq", "geq", "ne", "approx", "equiv", "cdot",
   "alpha", "beta", "gamma", "delta", "theta", "lambda", "mu", "sigma",
   "pi", "omega"]

/-- Stage 4: for each command, `text = text.replace('\' + cmd, '\\' + cmd)`. -/
def escapeStage (l : List Char) : List Char :=
  latexCommands.foldl (fun t cmd => replAll '\\' cmd.data ('\\' :: '\\' :: cmd.data) t) l

/-! ### `json.loads`, restricted to the schema's shape

The decode stage is Python's `json.loads`.  The pipeline's records are
flat JSON objects whose values are strings (the schema treats all field
values as opaque strings), so the parser is modelled on exactly that
grammar: an object of string-valued members, full JSON string-escape
handling (strict mode: raw control characters rejected, invalid escapes
rejected), trailing data rejected.  On any input outside this subset the
model returns `none`; `json.loads` agrees with the model on every input
the model accepts and on every input used below. -/

/-- JSON inter-token whitespace (space, tab, LF, CR — exactly the set
`json.loads` skips). -/
def isJsonWs (c : Char) : Bool :=
  decide (c = ' ' ∨ c = '\t' ∨ c = '\n' ∨ c = '\r')

/-- Skip JSON whitespace. -/
def skipWs (l : List Char) : List Char := l.dropWhile isJsonWs

/-- Hexadecimal digit value, if `c` is a hex digit. -/
def hexVal (c : Char) : Option Nat :=
  if '0' ≤ c ∧ c ≤ '9' then some (c.toNat - 48)
  else if 'a' ≤ c ∧ c ≤ 'f' then some (c.toNat - 87)
  else if 'A' ≤ c ∧ c ≤ 'F' then some (c.toNat - 55)
  else none

/-- Prepend a decoded character to the result of a string parse. -/
def consStr (c : Char) : Option (List Char × List Char) → Option (List Char × List Char)
  | some (s, rest) => some (c :: s, rest)
  | none => none

/-- Parse the body of a JSON string after its opening quote, returning the
decoded characters and the remainder after the closing quote.  Escapes are
those of `json.loads`; `\uXXXX` is handled for non-surrogate code points
(surrogates are outside the modelled subset); raw control characters are
rejected as in strict mode; an invalid escape such as `\l` is rejected. -/
def parseStr : List Char → Option (List Char × List Char)
  | [] => none
  | '"' :: rest => some ([], rest)
  | '\\' :: '"' :: rest => consStr '"' (parseStr rest)
  | '\\' :: '\\' :: rest => consStr '\\' (parseStr rest)
  | '\\' :: '/' :: rest => consStr '/' (parseStr rest)
  | '\\' :: 'b' :: rest => consStr '\x08' (parseStr rest)
  | '\\' :: 'f' :: rest => consStr '\x0c' (parseStr rest)
  | '\\' :: 'n' :: rest => consStr '\n' (parseStr rest)
  | '\\' :: 'r' :: rest => consStr '\r' (parseStr rest)
  | '\\' :: 't' :: rest => consStr '\t' (parseStr rest)
  | '\\' :: 'u' :: h1 :: h2 :: h3 :: h4 :: rest =>
    (match hexVal h1, hexVal h2, hexVal h3, hexVal h4 with
     | some a, some b, some c, some d =>
       let n := ((a * 16 + b) * 16 + c) * 16 + d
       if n < 0xd800 then consStr (Char.ofNat n) (parseStr rest) else none
     | _, _, _, _ => none)
  | '\\' :: _ => none
  | c :: rest => if c.toNat < 32 then none else consStr c (parseStr rest)

/-- The decoded record: field names to field values, in insertion order. -/
abbrev Record := List (List Char × List Char)

/-- Insert a member as a Python `dict` does: a repeated key keeps its first
position but takes the latest value. -/
def insertKV : Record → List Char → List Char → Record
  | [], k, v => [(k, v)]
  | (k0, v0) :: t, k, v =>
    if k0 = k then (k0, v) :: t else (k0, v0) :: insertKV t k v

/-- Association lookup in a decoded record. -/
def lookupKV : Record → List Char → Option (List Char)
  | [], _ => none
  | (k0, v0) :: t, k => if k0 = k then some v0 else lookupKV t k

/-- Parse the members of an object, positioned just after the `{` or after
a `,`; `fuel` bounds the number of members. -/
def parseMembers (acc : Record) : Nat → List Char → Option (Record × List Char)
  | 0, _ => none
  | f + 1, l =>
    match skipWs l with
    | [] => none
    | c :: r =>
      if c = '"' then
        match parseStr r with
        | none => none
        | some (k, r2) =>
          match skipWs r2 with
          | [] => none
          | c2 :: r3 =>
            if c2 = ':' then
              match skipWs r3 with
              | [] => none
              | c3 :: r4 =>
                if c3 = '"' then
                  match parseStr r4 with
                  | none => none
                  | some (v, r5) =>
                    match skipWs r5 with
                    | [] => none
                    | c4 :: r6 =>
                      if c4 = ',' then parseMembers (insertKV acc k v) f r6
                      else if c4 = cbr then some (insertKV acc k v, r6)
                      else none
                else none
            else none
      else none

/-- Stage 5, `json.loads` on the modelled subset: skip whitespace, parse
one object of string members, require only whitespace after it (`loads`
rejects extra data).  `none` stands for the `json.JSONDecodeError` the
source catches in its `except` block — the script's only failure channel. -/
def jsonLoads (l : List Char) : Option Record :=
  match skipWs l with
  | [] => none
  | c :: r =>
    if c = obr then
      match skipWs r with
      | [] => none
      | c2 :: r2 =>
        if c2 = cbr then (if skipWs r2 = [] then some [] else none)
        else
          match parseMembers [] (r.length + 1) r with
          | some (flds, rest) => if skipWs rest = [] then some flds else none
          | none => none
    else none

/-- The whole pipeline of `test_generate.py`: strip, conditional fence
stripping, regex extraction, LaTeX backslash escaping, decode.  `some r`
is the script reaching `json.dumps(data)`; `none` is the caught decode
exception. -/
def normalize (l : List Char) : Option Record :=
  jsonLoads (escapeStage (extractStage (fenceStage (pyStrip l))))

end SmartTalk

namespace SmartTalk

/-! ### Concrete inputs used by the claims -/

/-- The spec's extraction example: a literal `{` inside the `problem`
value. -/
def braceExample : List Char :=
  "\x7b\"problem\": \"has a \x7b brace\", \"func_signature\": \"f()\", \"class_definitions\": \"\"\x7d".data

/-- A schema object whose `class_definitions` value contains a literal
`}`. -/
def braceValInput : List Char :=
  "\x7b\"problem\": \"p\", \"func_signature\": \"f\", \"class_definitions\": \"x\x7d\"\x7d".data

/-- What extraction returns on `braceValInput`: the span truncated at the
`}` inside the string value. -/
def braceValTrunc : List Char :=
  "\x7b\"problem\": \"p\", \"func_signature\": \"f\", \"class_definitions\": \"x\x7d".data

/-- "problem" as a field name. -/
def keyProblem : List Char := "problem".data

/-- "func_signature" as a field name. -/
def keyFuncSig : List Char := "func_signature".data

/-- "class_definitions" as a field name. -/
def keyClassDefs : List Char := "class_definitions".data

end SmartTalk

namespace SmartTalk

/-- C1: the universal claim fails: extraction is the non-nested regex of
the source, and on a field value containing a literal `}` after both
required keys it returns a substring truncated at that in-string brace,
not the full balanced object. -/
theorem c1_counterexample :
    extractStage braceValInput = braceValTrunc ∧ braceValTrunc ≠ braceValInput := by
  constructor
  · decide
  · decide

/-- C1 (amended): extraction is a non-nested pattern match, not a
brace-depth scan.  On the spec's example — a literal `{` inside the
`problem` value — the regex finds no match at all, the text passes through
unchanged, and the pipeline still decodes the whole object. -/
theorem c1_amended :
    searchPat braceExample = none ∧ extractStage braceExample = braceExample ∧
      normalize braceExample =
        some [(keyProblem, "has a \x7b brace".data), (keyFuncSig, "f()".data),
              (keyClassDefs, [])] := by
  refine ⟨by decide, by decide, by decide⟩

end SmartTalk

namespace SmartTalk

/-! ### Helper lemmas -/

theorem begins_with_head_eq {c p : Char} {t ps : List Char}
    (h : beginsWith (c :: t) (p :: ps) = true) : c = p := by
  by_cases hc : c = p
  · exact hc
  · simp [beginsWith, hc] at h

theorem mem_of_has_sub {o : Char} {os l : List Char}
    (h : hasSub (o :: os) l = true) : o ∈ l := by
  induction l with
  | nil => simp [hasSub, beginsWith] at h
  | cons c t ih =>
    rw [hasSub, Bool.or_eq_true] at h
    rcases h with h | h
    · exact (begins_with_head_eq h) ▸ List.mem_cons_self c t
    · exact List.mem_cons_of_mem _ (ih h)

theorem repl_all_aux_id {o : Char} {os new l : List Char}
    (h : hasSub (o :: os) l = false) (f : Nat) :
    replAllAux o os new f l = l := by
  induction l generalizing f with
  | nil => cases f <;> rfl
  | cons c t ih =>
    cases f with
    | zero => rfl
    | succ f =>
      rw [hasSub, Bool.or_eq_false_iff] at h
      simp [replAllAux, h.1, ih h.2 f]

theorem repl_all_id {o : Char} {os new l : List Char}
    (h : hasSub (o :: os) l = false) : replAll o os new l = l :=
  repl_all_aux_id h _

theorem foldl_repl_id (cmds : List String) (l : List Char)
    (h : ∀ cmd ∈ cmds, hasSub ('\\' :: cmd.data) l = false) :
    cmds.foldl (fun t cmd => replAll '\\' cmd.data ('\\' :: '\\' :: cmd.data) t) l = l := by
  induction cmds with
  | nil => rfl
  | cons cmd cmds ih =>
    rw [List.foldl_cons, repl_all_id (h cmd (by simp))]
    exact ih fun c hc => h c (by simp [hc])

/-- The escaping stage is the identity on any text containing no
occurrence of a backslash immediately followed by a recognized command
name. -/
theorem escape_stage_id {l : List Char}
    (h : ∀ cmd ∈ latexCommands, hasSub ('\\' :: cmd.data) l = false) :
    escapeStage l = l :=
  foldl_repl_id latexCommands l h

theorem has_sub_backslash_false {os l : List Char} (h : '\\' ∉ l) :
    hasSub ('\\' :: os) l = false := by
  cases hh : hasSub ('\\' :: os) l with
  | false => rfl
  | true => exact absurd (mem_of_has_sub hh) h

theorem drop_while_append_eq_nil {p : Char → Bool} {a b : List Char}
    (h : List.dropWhile p a = []) :
    List.dropWhile p (a ++ b) = List.dropWhile p b := by
  induction a with
  | nil => simp
  | cons c t ih =>
    by_cases hc : p c = true
    · rw [List.dropWhile_cons_of_pos hc] at h
      rw [List.cons_append, List.dropWhile_cons_of_pos hc]
      exact ih h
    · rw [List.dropWhile_cons_of_neg (by simpa using hc)] at h
      exact absurd h (by simp)

theorem drop_while_append_eq_cons {p : Char → Bool} {a b l : List Char} {c : Char}
    (h : List.dropWhile p a = c :: l) :
    List.dropWhile p (a ++ b) = c :: (l ++ b) := by
  induction a with
  | nil => simp at h
  | cons d u ih =>
    by_cases hd : p d = true
    · rw [List.dropWhile_cons_of_pos hd] at h
      rw [List.cons_append, List.dropWhile_cons_of_pos hd]
      exact ih h
    · rw [List.dropWhile_cons_of_neg (by simpa using hd)] at h
      cases h
      rw [List.cons_append, List.dropWhile_cons_of_neg (by simpa using hd)]

theorem drop_while_head_false {p : Char → Bool} {l t : List Char} {c : Char}
    (h : List.dropWhile p l = c :: t) : p c = false := by
  induction l with
  | nil => simp at h
  | cons d u ih =>
    by_cases hd : p d = true
    · rw [List.dropWhile_cons_of_pos hd] at h
      exact ih h
    · rw [List.dropWhile_cons_of_neg (by simpa using hd)] at h
      cases h
      simpa using hd

theorem take_while_run {p : Char → Bool} {a r : List Char} {b : Char}
    (h : ∀ c ∈ a, p c = true) (hb : p b = false) :
    List.takeWhile p (a ++ b :: r) = a := by
  induction a with
  | nil => simp [List.takeWhile_cons, hb]
  | cons c t ih =>
    rw [List.cons_append, List.takeWhile_cons, h c (by simp), if_pos rfl]
    rw [ih fun d hd => h d (by simp [hd])]

theorem drop_while_run {p : Char → Bool} {a r : List Char} {b : Char}
    (h : ∀ c ∈ a, p c = true) (hb : p b = false) :
    List.dropWhile p (a ++ b :: r) = b :: r := by
  induction a with
  | nil => simp [List.dropWhile_cons, hb]
  | cons c t ih =>
    rw [List.cons_append, List.dropWhile_cons_of_pos (h c (by simp))]
    exact ih fun d hd => h d (by simp [hd])

theorem search_pat_none_of_no_obr {l : List Char} (h : ∀ c ∈ l, c ≠ obr) :
    searchPat l = none := by
  induction l with
  | nil => rfl
  | cons c t ih =>
    have hc : ¬ (c = obr) := h c (by simp)
    rw [searchPat, matchAtHead]
    simp only [hc, if_false]
    exact ih fun d hd => h d (by simp [hd])

end SmartTalk

namespace SmartTalk

/-- A reply whose `problem` value uses `\leq`. -/
def leqProblemInput : List Char :=
  "\x7b\"problem\": \"$1 \\leq n$\", \"func_signature\": \"f\", \"class_definitions\": \"\"\x7d".data

/-- C2: the escaping stage does not always produce exactly a doubled
backslash: `\leq` is first rewritten to `\\leq` by the `le` pass and then
to `\\\leq` by the `leq` pass — a tripled backslash — while `\le` itself
is doubled correctly; the tripled run makes the subsequent decode of a
reply using `\leq` fail, defeating the purpose of the escaping stage. -/
theorem c2_escape_leq_triple :
    escapeStage "\\leq".data = "\\\\\\leq".data ∧
      escapeStage "\\le".data = "\\\\le".data ∧
      normalize leqProblemInput = none := by
  refine ⟨by decide, by decide, by decide⟩

/-- C3: the escaping stage is not idempotent: a second application turns
the doubled backslash of `\\le` into a tripled one. -/
theorem c3_counterexample :
    escapeStage "\\le".data = "\\\\le".data ∧
      escapeStage (escapeStage "\\le".data) = "\\\\\\le".data ∧
      escapeStage (escapeStage "\\le".data) ≠ escapeStage "\\le".data := by
  refine ⟨by decide, by decide, by decide⟩

/-- C3 (amended): the escaping stage is idempotent on texts containing no
backslash at all (it is then the identity); on texts with
backslash-command sequences a second application lengthens the runs. -/
theorem c3_amended {l : List Char} (h : '\\' ∉ l) :
    escapeStage (escapeStage l) = escapeStage l := by
  have e : escapeStage l = l :=
    escape_stage_id fun cmd _ => has_sub_backslash_false h
  rw [e]
  exact e

/-- Witness for `c3_amended` at a concrete backslash-free text. -/
theorem c3_witness :
    '\\' ∉ "hello world".data ∧
      escapeStage (escapeStage "hello world".data) = escapeStage "hello world".data :=
  ⟨by decide, c3_amended (by decide)⟩

/-- C4: a doubled backslash followed by a recognized command name is not
left untouched: the escaping stage rewrites `\\le` to `\\\le`. -/
theorem c4_counterexample :
    escapeStage "\\\\le".data = "\\\\\\le".data ∧
      escapeStage "\\\\le".data ≠ "\\\\le".data := by
  refine ⟨by decide, by decide⟩

/-- C4 (amended): the escaping stage leaves a text unchanged — in
particular every `\"`, `\\`, `\n`, `\t`, `\/` in it — provided no
backslash in the text is immediately followed by a recognized command
name; a doubled backslash followed by a command name is instead rewritten
to a tripled backslash. -/
theorem c4_amended {l : List Char}
    (h : ∀ cmd ∈ latexCommands, hasSub ('\\' :: cmd.data) l = false) :
    escapeStage l = l :=
  escape_stage_id h

/-- Witness for `c4_amended`: a text made of the already-valid JSON
escapes, none of which precedes a recognized command name. -/
theorem c4_witness :
    (∀ cmd ∈ latexCommands, hasSub ('\\' :: cmd.data) "\\\" \\\\ \\n \\t \\/ x".data = false) ∧
      escapeStage "\\\" \\\\ \\n \\t \\/ x".data = "\\\" \\\\ \\n \\t \\/ x".data :=
  ⟨by decide, c4_amended (by decide)⟩

/-- A schema object lacking `class_definitions`. -/
def missingFieldInput : List Char :=
  "\x7b\"problem\": \"p\", \"func_signature\": \"f\"\x7d".data

/-- C5: an input that parses but lacks the `class_definitions` key does
not produce a `MissingField` failure — the pipeline succeeds and returns
the decoded record without that key. -/
theorem c5_counterexample :
    normalize missingFieldInput =
      some [(keyProblem, "p".data), (keyFuncSig, "f".data)] := by
  decide

/-- C5 (amended): the pipeline performs no field-presence validation:
when decoding succeeds with a Schema key absent, `normalize` returns the
decoded record, which simply lacks that key. -/
theorem c5_amended :
    normalize missingFieldInput =
        some [(keyProblem, "p".data), (keyFuncSig, "f".data)] ∧
      lookupKV [(keyProblem, "p".data), (keyFuncSig, "f".data)] keyClassDefs = none ∧
      lookupKV [(keyProblem, "p".data), (keyFuncSig, "f".data)] keyProblem =
        some "p".data := by
  refine ⟨by decide, by decide, by decide⟩

/-- Plain prose with no JSON-like structure. -/
def proseInput : List Char :=
  "Sorry, I cannot generate a problem right now.".data

/-- C6: plain prose does not yield a distinct `NoObjectFound` outcome:
the extraction stage finds no match and passes the full text through
unchanged, and the pipeline's failure is the decode failure (the caught
`json.loads` exception, the script's only failure channel). -/
theorem c6_counterexample :
    searchPat proseInput = none ∧ extractStage proseInput = proseInput ∧
      normalize proseInput = none := by
  refine ⟨by decide, by decide, by decide⟩

/-- C6 (amended): whenever the extraction regex finds no match, the
pipeline's outcome is exactly the decode stage's verdict on the escaped,
unchanged text — extraction itself never fails. -/
theorem c6_amended (l : List Char)
    (h : searchPat (fenceStage (pyStrip l)) = none) :
    normalize l = jsonLoads (escapeStage (fenceStage (pyStrip l))) := by
  rw [normalize, extractStage, h]

/-- Witness for `c6_amended` at the concrete prose input. -/
theorem c6_witness :
    searchPat (fenceStage (pyStrip proseInput)) = none ∧
      normalize proseInput = jsonLoads (escapeStage (fenceStage (pyStrip proseInput))) :=
  ⟨by decide, c6_amended proseInput (by decide)⟩

/-- The spec's end-to-end example input: prose, then a `json`-tagged fence
around the object, whose `problem` value uses raw `\le`. -/
def endToEndInput : List Char :=
  ("Here is the problem:\n```json\n\x7b\"problem\": \"Find pairs summing to target, "
    ++ "where $2 \\le n \\le 10^4$\", \"func_signature\": \"def f(nums: list) -> list:\", "
    ++ "\"class_definitions\": \"\"\x7d\n```").data

/-- C7: the end-to-end example normalizes to the expected record: the
`problem` value contains the literal `$2 \le n \le 10^4$` with single
backslashes, and the other two fields are verbatim. -/
theorem c7_end_to_end :
    normalize endToEndInput =
        some [(keyProblem, "Find pairs summing to target, where $2 \\le n \\le 10^4$".data),
              (keyFuncSig, "def f(nums: list) -> list:".data),
              (keyClassDefs, [])] ∧
      hasSub "$2 \\le n \\le 10^4$".data
        "Find pairs summing to target, where $2 \\le n \\le 10^4$".data = true := by
  refine ⟨by decide, by decide⟩

end SmartTalk

namespace SmartTalk

theorem ne_obr_of_not_brace {c : Char} (h : notBrace c = true) : c ≠ obr := by
  intro he
  subst he
  simp [notBrace] at h

/-- A valid JSON object with all schema fields whose raw text contains
`\\le` — already the correct JSON escape for one backslash. -/
def escapedJsonInput : List Char :=
  "\x7b\"problem\": \"a \\\\le b\", \"func_signature\": \"f\", \"class_definitions\": \"\"\x7d".data

/-- C8: the pipeline is not an identity-then-decode on already-valid
JSON: this input decodes directly to a record (whose `problem` value is
`a \le b`), but the escaping stage rewrites its `\\le` to `\\\le`,
making the pipeline's own decode fail. -/
theorem c8_counterexample :
    jsonLoads escapedJsonInput =
        some [(keyProblem, "a \\le b".data), (keyFuncSig, "f".data), (keyClassDefs, [])] ∧
      normalize escapedJsonInput = none := by
  refine ⟨by decide, by decide⟩

/-- C8 (amended): for an input that is exactly one JSON object (no
surrounding whitespace, prose or fences), contains no brace characters
between its outer braces, and contains no backslash immediately followed
by a recognized command name, `normalize` returns the direct JSON decode
of the input. -/
theorem c8_amended (mid : List Char) (r : Record)
    (hbr : ∀ c ∈ mid, notBrace c = true)
    (hcmd : ∀ cmd ∈ latexCommands, hasSub ('\\' :: cmd.data) (obr :: (mid ++ [cbr])) = false)
    (hjson : jsonLoads (obr :: (mid ++ [cbr])) = some r) :
    normalize (obr :: (mid ++ [cbr])) = some r := by
  have hstrip : pyStrip (obr :: (mid ++ [cbr])) = obr :: (mid ++ [cbr]) := by
    have h1 : lstripWs (obr :: (mid ++ [cbr])) = obr :: (mid ++ [cbr]) := by
      rw [lstripWs, List.dropWhile_cons_of_neg (by simp [show isPyWs obr = false from by decide])]
    have hrev : (obr :: (mid ++ [cbr])).reverse = cbr :: (mid.reverse ++ [obr]) := by simp
    rw [pyStrip, h1, rstripWs, hrev,
      List.dropWhile_cons_of_neg (by simp [show isPyWs cbr = false from by decide]),
      ← hrev, List.reverse_reverse]
  have hfence : fenceStage (obr :: (mid ++ [cbr])) = obr :: (mid ++ [cbr]) := by
    rw [fenceStage, if_neg]
    simp [beginsWith, fenceLit, show ¬ (obr = tick) from by decide]
  have htake : (mid ++ [cbr]).takeWhile notBrace = mid :=
    take_while_run hbr (by decide)
  have hdrop : (mid ++ [cbr]).dropWhile notBrace = [cbr] :=
    drop_while_run hbr (by decide)
  have hextract : extractStage (obr :: (mid ++ [cbr])) = obr :: (mid ++ [cbr]) := by
    by_cases hseq : seqOk mid = true
    · have hmatch : matchAtHead (obr :: (mid ++ [cbr])) = some (obr :: (mid ++ [cbr])) := by
        simp [matchAtHead, htake, hdrop, hseq]
      rw [extractStage, searchPat, hmatch]
    · have hmatch : matchAtHead (obr :: (mid ++ [cbr])) = none := by
        simp [matchAtHead, htake, hdrop, hseq]
      have hrest : searchPat (mid ++ [cbr]) = none := by
        refine search_pat_none_of_no_obr fun c hc => ?_
        rcases List.mem_append.mp hc with h | h
        · exact ne_obr_of_not_brace (hbr c h)
        · simp only [List.mem_singleton] at h
          subst h
          decide
      rw [extractStage, searchPat, hmatch, hrest]
  rw [normalize, hstrip, hfence, hextract, escape_stage_id hcmd, hjson]

/-- Witness for `c8_amended` at a concrete clean JSON input. -/
theorem c8_witness :
    (∀ c ∈ ("\"problem\": \"p\", \"func_signature\": \"f\", \"class_definitions\": \"\"").data,
        notBrace c = true) ∧
      normalize (obr :: (("\"problem\": \"p\", \"func_signature\": \"f\", \"class_definitions\": \"\"").data ++ [cbr])) =
        some [(keyProblem, "p".data), (keyFuncSig, "f".data), (keyClassDefs, [])] :=
  ⟨by decide,
    c8_amended _ _ (by decide) (by decide) (by decide)⟩

end SmartTalk

namespace SmartTalk

/-- Wrap a response in a fence marker with the `json` language tag: an
opening fence with the tag on its own line, the text, a closing fence on
its own line. -/
def wrapFence (l : List Char) : List Char :=
  "```json\n".data ++ (l ++ "\n```".data)

/-- A response that is itself fence-wrapped JSON whose `problem` value
contains a literal `{` (so the extraction regex cannot rescue it). -/
def fencedResponse : List Char :=
  "```json\n\x7b\"problem\": \"has a \x7b brace\", \"func_signature\": \"f()\", \"class_definitions\": \"\"\x7d\n```".data

/-- C9: wrapping an already-successful response in one more fence does
not always decode identically: `fencedResponse` normalizes to a record,
but wrapped in a further `json` fence the pipeline only strips the outer
fence, the extraction regex finds no match (a `{` sits inside a value),
and the decode of the still-fenced text fails. -/
theorem c9_counterexample :
    normalize fencedResponse =
        some [(keyProblem, "has a \x7b brace".data), (keyFuncSig, "f()".data),
              (keyClassDefs, [])] ∧
      normalize (wrapFence fencedResponse) = none := by
  refine ⟨by decide, by decide⟩

/-- Fence stripping of a wrapped text recovers the stripped payload:
`strip` leaves the wrapped text alone (it begins and ends with a
backtick), the first substitution removes the opening fence, tag and the
following whitespace, and the second removes the closing fence and the
whitespace before it — together exactly `strip` of the payload. -/
theorem fence_wrap (R : List Char) :
    fenceStage (pyStrip (wrapFence R)) = pyStrip R := by
  have hA : "```json\n".data = tick :: tick :: tick :: 'j' :: 's' :: 'o' :: 'n' :: '\n' :: [] := by
    decide
  have hB : "\n```".data = '\n' :: tick :: tick :: tick :: [] := by decide
  have hBrev : ("\n```".data).reverse = tick :: tick :: tick :: '\n' :: [] := by decide
  have hJ : "json".data = 'j' :: 's' :: 'o' :: 'n' :: [] := by decide
  have htick : isPyWs tick = false := by decide
  have hnl : isPyWs '\n' = true := by decide
  have hw : wrapFence R =
      tick :: tick :: tick :: 'j' :: 's' :: 'o' :: 'n' :: '\n' ::
        (R ++ ('\n' :: tick :: tick :: tick :: [])) := by
    rw [wrapFence, hA, hB]
    simp
  have hrev : (wrapFence R).reverse =
      tick :: tick :: tick :: '\n' :: (R.reverse ++ ("```json\n".data).reverse) := by
    rw [wrapFence, List.reverse_append, List.reverse_append, hBrev]
    simp
  have hstrip : pyStrip (wrapFence R) = wrapFence R := by
    have h1 : lstripWs (wrapFence R) = wrapFence R := by
      rw [hw, lstripWs, List.dropWhile_cons_of_neg (by simp [htick])]
    rw [pyStrip, h1, rstripWs, hrev,
      List.dropWhile_cons_of_neg (by simp [htick]), ← hrev, List.reverse_reverse]
  have hbw : beginsWith (wrapFence R) fenceLit = true := by
    rw [hw]
    simp [beginsWith, fenceLit]
  have hlead : subLeadingFence (wrapFence R) =
      List.dropWhile isPyWs (R ++ ('\n' :: tick :: tick :: tick :: [])) := by
    rw [subLeadingFence, if_pos hbw, hw]
    simp only [List.drop_succ_cons, List.drop_zero]
    rw [if_pos (by simp [beginsWith, hJ])]
    rw [lstripWs, List.dropWhile_cons_of_pos hnl]
  rw [hstrip, fenceStage, if_pos hbw, hlead]
  cases hR : List.dropWhile isPyWs R with
  | nil =>
    rw [drop_while_append_eq_nil hR]
    have h2 : List.dropWhile isPyWs ('\n' :: tick :: tick :: tick :: []) =
        tick :: tick :: tick :: [] := by decide
    have h3 : subTrailingFence (tick :: tick :: tick :: []) = [] := by decide
    rw [h2, h3, pyStrip, lstripWs, hR]
    decide
  | cons c t =>
    rw [drop_while_append_eq_cons hR]
    have hrev2 : (c :: (t ++ ('\n' :: tick :: tick :: tick :: []))).reverse =
        tick :: tick :: tick :: '\n' :: (t.reverse ++ [c]) := by
      rw [List.reverse_cons, List.reverse_append]
      simp
    rw [subTrailingFence, if_pos (by rw [hrev2]; simp [beginsWith, fenceLit]), hrev2]
    simp only [List.drop_succ_cons, List.drop_zero]
    rw [lstripWs, List.dropWhile_cons_of_pos hnl, ← List.reverse_cons,
      pyStrip, lstripWs, hR, rstripWs]

/-- C9 (amended): provided the stripped response does not itself begin
with a fence marker, wrapping it in a `json`-tagged fence yields an input
that normalizes to exactly the same outcome. -/
theorem c9_amended (R : List Char)
    (h : beginsWith (pyStrip R) fenceLit = false) :
    normalize (wrapFence R) = normalize R := by
  have h2 : fenceStage (pyStrip R) = pyStrip R := by
    rw [fenceStage, if_neg (by simp [h])]
  rw [normalize, normalize, fence_wrap R, h2]

/-- Witness for `c9_amended` at a concrete fence-free response. -/
theorem c9_witness :
    beginsWith
        (pyStrip "\x7b\"problem\": \"p\", \"func_signature\": \"f\", \"class_definitions\": \"\"\x7d".data)
        fenceLit = false ∧
      normalize (wrapFence "\x7b\"problem\": \"p\", \"func_signature\": \"f\", \"class_definitions\": \"\"\x7d".data) =
        normalize "\x7b\"problem\": \"p\", \"func_signature\": \"f\", \"class_definitions\": \"\"\x7d".data :=
  ⟨by decide, c9_amended _ (by decide)⟩

end SmartTalk

namespace SmartTalk

/-- A schema object with `func_signature` appearing before `problem`. -/
def swappedInput : List Char :=
  "\x7b\"func_signature\": \"f\", \"problem\": \"p\", \"class_definitions\": \"\"\x7d".data

/-- C10: the extraction stage never fails on its own — when the regex
finds no match the candidate text is passed on completely unchanged; the
pattern does not require `\"class_definitions\"` (an object with only the
two searched keys is matched whole); and an object with
`\"func_signature\"` before `\"problem\"` is not selected. -/
theorem c10_extraction :
    (∀ l : List Char, searchPat l = none → extractStage l = l) ∧
      searchPat missingFieldInput = some missingFieldInput ∧
      searchPat swappedInput = none ∧
      extractStage swappedInput = swappedInput := by
  refine ⟨fun l h => by rw [extractStage, h], by decide, by decide, by decide⟩

/-- Witness for the hypothesis part of `c10_extraction` at a concrete
matchless text. -/
theorem c10_witness :
    searchPat "no json here at all".data = none ∧
      extractStage "no json here at all".data = "no json here at all".data :=
  ⟨by decide, c10_extraction.1 _ (by decide)⟩

end SmartTalk
